import Mathlib

/-
  Verification of the gemini-search-mcp core: subprocess orchestration,
  JSON extraction/validation, correction fallback, retry orchestrator and
  the multi-round deep-search controller.

  The definitions below are a shallow embedding of the TypeScript sources
  `src/utils.ts`, `src/search.ts` and `src/deep-search.ts`.  External
  effects (the spawned Gemini CLI subprocess, `JSON.parse`, the file
  system, model detection) are supplied as explicit oracle functions or
  state, so every definition is an executable Lean function.
-/

namespace GeminiSearch

/-- Universe of runtime JSON values that the validator inspects.  The
source works on `Record<string, unknown>`; the validator and the search
result check only look at `boolean` and `string` typed fields, so every
other runtime value is collapsed into `JVal.other`. -/
inductive JVal where
  | bool (b : Bool)
  | str (s : String)
  | other
deriving DecidableEq

/-- A parsed JSON object (`Record<string, unknown>`), as an association
list from field names to values. -/
abbrev Obj := List (String × JVal)

/-- Field access `data.k` on a parsed object. -/
def lookupJ (o : Obj) (k : String) : Option JVal :=
  List.lookup k o

/-- Embedding of `validateResearchResult` (src/utils.ts:87-98):
`typeof data.success !== 'boolean'` fails; `data.success &&
typeof data.report !== 'string'` fails; otherwise passes. -/
def validateResearchResult (data : Obj) : Bool :=
  match lookupJ data "success" with
  | some (JVal.bool b) =>
    if b then
      match lookupJ data "report" with
      | some (JVal.str _) => true
      | _ => false
    else true
  | _ => false

/-- Split a character list at the first occurrence of `pat`: returns the
part strictly before the occurrence and the part strictly after it. -/
def splitFirst (pat : List Char) : List Char → Option (List Char × List Char)
  | [] => if pat.isPrefixOf ([] : List Char) then some ([], []) else none
  | c :: cs =>
    if pat.isPrefixOf (c :: cs) then some ([], (c :: cs).drop pat.length)
    else
      match splitFirst pat cs with
      | some (pre, post) => some (c :: pre, post)
      | none => none

/-- The text captured by the fence regex ```` /```json\s*([\s\S]*?)\s*```/ ````
in `extractJsonFromOutput`: the content between the first ```` ```json ````
marker and the first subsequent ```` ``` ```` marker (the surrounding
whitespace eaten by `\s*` is removed by the `.trim()` the caller applies).
`none` when no complete fenced block exists. -/
def fenceCandidate (output : String) : Option String :=
  match splitFirst "```json".toList output.toList with
  | none => none
  | some (_, rest) =>
    match splitFirst "```".toList rest with
    | none => none
    | some (content, _) => some (String.mk content)

/-- The text matched by the raw-object regex `/\{[\s\S]*\}/` in
`extractJsonFromOutput`: the substring from the first `\x7b` to the last
`\x7d`, provided the latter comes after the former. -/
def braceCandidate (output : String) : Option String :=
  match splitFirst ['\x7b'] output.toList with
  | none => none
  | some (_, rest) =>
    match splitFirst ['\x7d'] rest.reverse with
    | none => none
    | some (_, revBefore) => some (String.mk ('\x7b' :: (revBefore.reverse ++ ['\x7d'])))

/-- JavaScript `String.prototype.trim`: remove leading and trailing
whitespace. -/
def trimStr (s : String) : String :=
  String.mk (((s.toList.dropWhile Char.isWhitespace).reverse.dropWhile
    Char.isWhitespace).reverse)

/-- Strategy 2 of `extractJsonFromOutput`: parse the first-`\x7b`-to-last-`\x7d`
substring; `none` when there is no such substring or parsing fails. -/
def braceExtract (parse : String → Option Obj) (output : String) : Option Obj :=
  match braceCandidate output with
  | some b => parse b
  | none => none

/-- Embedding of `extractJsonFromOutput` (src/utils.ts:53-82),
parameterised by `parse`, the oracle standing for `JSON.parse` (returning
`none` both when parsing throws and when the parsed value is not an
object).  Strategy 1: first fenced ```` ```json ```` block, trimmed, parsed.
Strategy 2: first-`\x7b`-to-last-`\x7d` substring.  Otherwise `none`; the
function never throws. -/
def extractJsonFromOutput (parse : String → Option Obj) (output : String) : Option Obj :=
  match fenceCandidate output with
  | some c =>
    match parse (trimStr c) with
    | some p => some p
    | none => braceExtract parse output
  | none => braceExtract parse output

/-! ## Process runner (`spawnGeminiCli`, src/utils.ts:175-307) -/

/-- Failure modes of one subprocess run, mirroring the rejection paths of
`spawnGeminiCli`. -/
inductive SpawnErr where
  | timeoutErr (ms : Nat)
  | nonZeroExit (code : Int) (stderr : String)
  | spawnFailure (msg : String)
deriving DecidableEq

/-- Observable behaviour of one spawned OS process: whether the `error`
event fires (binary missing), the wall-clock instant of the `close` event,
the exit code, and the accumulated stdout/stderr.  Supplied as an oracle
to the embedded runner. -/
structure ProcBehavior where
  spawnError : Option String
  closeTime : Nat
  exitCode : Int
  stdout : String
  stderr : String
deriving DecidableEq

/-- Embedding of `spawnGeminiCli` (src/utils.ts:175-307).  The `error`
event (spawn failure) rejects first; otherwise, if the timeout timer
fires before the `close` event (`timeoutMs ≤ closeTime`), the `timedOut`
flag is set and the promise rejects with the timeout error — the later
`close` event is ignored (src/utils.ts:266-269), so the accumulated
stdout is discarded even when the exit code is 0.  Otherwise a nonzero
exit code rejects and exit code 0 resolves with the accumulated stdout. -/
def spawnGeminiCli (timeoutMs : Nat) (b : ProcBehavior) : Except SpawnErr String :=
  match b.spawnError with
  | some msg => Except.error (SpawnErr.spawnFailure msg)
  | none =>
    if timeoutMs ≤ b.closeTime then Except.error (SpawnErr.timeoutErr timeoutMs)
    else if b.exitCode ≠ 0 then Except.error (SpawnErr.nonZeroExit b.exitCode b.stderr)
    else Except.ok b.stdout

/-! ## Correction fallback (`correctJsonOutput`, src/utils.ts:320-375) -/

/-- Outcome of one subprocess call as seen by the retry orchestrator: the
resolved stdout text, or the message of the thrown error. -/
inductive RunOutcome where
  | ok (output : String)
  | err (msg : String)
deriving DecidableEq

/-- File-system / process events emitted during one correction call, used
to state the artifact-lifecycle invariant. -/
inductive FEv where
  | create (name : String)
  | spawnCall
  | unlink (name : String)
deriving DecidableEq

/-- The unique temp-file name `temp-invalid-output-${timestamp}.txt`
(src/utils.ts:326). -/
def tempNameOf (ts : Nat) : String :=
  "temp-invalid-output-" ++ toString ts ++ ".txt"

/-- Embedding of `correctJsonOutput` (src/utils.ts:320-375).  `run` is
the outcome of the single correction subprocess call, `ts` the timestamp
used in the temp-file name, `fs` the set of files on disk (as a list of
names), and `unlinkOk` whether the deletion in the `finally` block
succeeds (a failed deletion is only logged).  Returns the event trace,
the resulting file system, and the call's result: the corrected object,
or the error that is thrown (the subprocess error re-raised through the
`finally`, or `Correction output is still invalid JSON` when the
correction's own output does not extract and validate). -/
def correctJsonOutput (parse : String → Option Obj) (run : RunOutcome)
    (ts : Nat) (fs : List String) (unlinkOk : Bool) :
    List FEv × List String × Except String Obj :=
  let tempName := tempNameOf ts
  let fsAfterWrite := tempName :: fs
  let res : Except String Obj :=
    match run with
    | RunOutcome.err m => Except.error m
    | RunOutcome.ok out =>
      match extractJsonFromOutput parse out with
      | some p =>
        if validateResearchResult p then Except.ok p
        else Except.error "Correction output is still invalid JSON"
      | none => Except.error "Correction output is still invalid JSON"
  let fsFinal := if unlinkOk then fsAfterWrite.erase tempName else fsAfterWrite
  ([FEv.create tempName, FEv.spawnCall, FEv.unlink tempName], fsFinal, res)

/-! ## Retry orchestrator (`executeResearchWithCorrection`, src/utils.ts:392-459) -/

/-- Result record `{ data, detectedModel? }` returned by the orchestrator
(src/utils.ts:312-315). -/
structure CorrectionResult where
  data : Obj
  detectedModel : Option String
deriving DecidableEq

/-- Environment of one orchestrator call: the `JSON.parse` oracle, the
outcome of the k-th main subprocess call, the outcome of the k-th
correction subprocess call, the model-detection scan
(`detectModelFromCliOutput`), and whether the k-th temp-file deletion
succeeds. -/
structure RetryEnv where
  parse : String → Option Obj
  mainRun : Nat → RunOutcome
  corrRun : Nat → RunOutcome
  detect : String → Option String
  unlinkOk : Nat → Bool

/-- Observable events of one orchestrator call: a main subprocess call
with the prompt it was given, a correction subprocess call, and a backoff
delay of the given number of milliseconds. -/
inductive REv where
  | mainCall (prompt : String)
  | corrCall
  | delayEv (ms : Nat)
deriving DecidableEq

/-- The backoff delay taken after failed cycle `attempt`:
`Math.min(1000 * Math.pow(2, attempt - 1), 5000)` (src/utils.ts:448). -/
def backoffDelay (attempt : Nat) : Nat :=
  min (1000 * 2 ^ (attempt - 1)) 5000

/-- The terminal error message (src/utils.ts:455-457). -/
def aggMsg (maxRetries : Nat) : Option String → String
  | some m => "All " ++ toString maxRetries ++ " research attempts failed. Last error: " ++ m
  | none => "All " ++ toString maxRetries ++ " research attempts failed"

/-- The body of one retry cycle (src/utils.ts:404-444): run the main
prompt; if extraction+validation succeeds return the payload (with the
model detected from the raw output when none is configured); otherwise
attempt exactly one correction on the same raw output and return its
payload on success; a main-run error or correction failure becomes the
cycle's error.  The `Bool` records whether a correction subprocess call
occurred during the cycle. -/
def cycleOutcome (env : RetryEnv) (mainModel : Option String) (attempt : Nat) :
    Bool × Except String CorrectionResult :=
  match env.mainRun attempt with
  | RunOutcome.err m => (false, Except.error m)
  | RunOutcome.ok out =>
    let dm := if mainModel.isNone then env.detect out else none
    let valid : Option Obj :=
      match extractJsonFromOutput env.parse out with
      | some p => if validateResearchResult p then some p else none
      | none => none
    match valid with
    | some p => (false, Except.ok ⟨p, dm⟩)
    | none =>
      match (correctJsonOutput env.parse (env.corrRun attempt) attempt []
          (env.unlinkOk attempt)).2.2 with
      | Except.ok cobj => (true, Except.ok ⟨cobj, dm⟩)
      | Except.error m => (true, Except.error m)

/-- One pass of the retry loop of `executeResearchWithCorrection`
(src/utils.ts:401-452), with `fuel` the number of cycles still allowed
(`fuel = maxRetries + 1 - attempt` at every call).  On a cycle success
return at once; on a cycle failure record the last error, take the
backoff delay when `attempt < maxRetries`, and move to the next cycle.
Returns the event trace and the overall result. -/
def execLoop (env : RetryEnv) (prompt : String) (mainModel : Option String)
    (maxRetries : Nat) : Nat → Nat → Option String → List REv × Except String CorrectionResult
  | 0, _, lastErr => ([], Except.error (aggMsg maxRetries lastErr))
  | fuel + 1, attempt, _ =>
    match cycleOutcome env mainModel attempt with
    | (corrRan, Except.ok r) =>
      (REv.mainCall prompt :: (if corrRan then [REv.corrCall] else []), Except.ok r)
    | (corrRan, Except.error m) =>
      let tail := execLoop env prompt mainModel maxRetries fuel (attempt + 1) (some m)
      let dl := if attempt < maxRetries then [REv.delayEv (backoffDelay attempt)] else []
      (REv.mainCall prompt ::
        ((if corrRan then [REv.corrCall] else []) ++ dl ++ tail.1), tail.2)

/-- Embedding of `executeResearchWithCorrection` (src/utils.ts:392-459).
`mainModel` is `model ?? config.geminiModel` (`none` when neither is
configured); the schema example only feeds the unmodelled text of the
correction prompt, so it is not a parameter here.  Starts the loop at
attempt 1 with no recorded error. -/
def executeResearchWithCorrection (env : RetryEnv) (prompt : String)
    (mainModel : Option String) (maxRetries : Nat) :
    List REv × Except String CorrectionResult :=
  execLoop env prompt mainModel maxRetries maxRetries 1 none

/-- Is the event a main subprocess call? -/
def isMainEv : REv → Bool
  | REv.mainCall _ => true
  | _ => false

/-- Is the event a correction subprocess call? -/
def isCorrEv : REv → Bool
  | REv.corrCall => true
  | _ => false

/-- Is the event a backoff delay? -/
def isDelayEv : REv → Bool
  | REv.delayEv _ => true
  | _ => false

/-- The delays of a trace, in order. -/
def delayVals : List REv → List Nat
  | [] => []
  | REv.delayEv d :: r => d :: delayVals r
  | REv.mainCall _ :: r => delayVals r
  | REv.corrCall :: r => delayVals r

/-- The last event of a trace. -/
def lastEv : List REv → Option REv
  | [] => none
  | [e] => some e
  | _ :: e :: r => lastEv (e :: r)

/-- The error a failed cycle `k` records as `lastError`: the main or
correction subprocess's thrown message, or the constant
still-invalid-JSON message (see `cycleOutcome`); for a cycle whose main
run returns unextractable output and whose correction also fails, this is
determined by the correction run alone. -/
def lastCycleErr (env : RetryEnv) (k : Nat) : String :=
  match env.corrRun k with
  | RunOutcome.err m => m
  | RunOutcome.ok _ => "Correction output is still invalid JSON"

/-! ## `search` entry point (src/search.ts) -/

/-- The caller-visible error value `{ code, message, details? }` shared
by both entry points. -/
structure ErrObj where
  code : String
  message : String
  details : Option String
deriving DecidableEq

/-- Metadata of a successful single-round search.  The wall-clock fields
`duration_ms` and `timestamp` are not representable in this embedding and
the untyped metadata passthrough is not read by any claim; the fields the
control flow computes are kept. -/
structure SearchMetadata where
  query : String
  model : String
deriving DecidableEq

/-- Successful `search` result. -/
structure SearchSuccessR where
  report : String
  metadata : SearchMetadata
deriving DecidableEq

/-- The discriminated result of `search`: `{success:true, report,
metadata}` or `{success:false, error}`. -/
inductive SearchResultR where
  | ok (s : SearchSuccessR)
  | fail (e : ErrObj)
deriving DecidableEq

/-- Environment of one `search` call: CLI availability
(`checkGeminiCli`), the rendered prompt for a query
(`buildSearchPrompt`, which never throws: template failures fall back to
a built-in prompt), and the retry-orchestrator environment. -/
structure SearchEnv where
  cliAvailable : Bool
  promptOf : String → String
  renv : RetryEnv

/-- The model recorded in search metadata:
`config.geminiModel || detectedModel || 'auto-detected'`
(src/search.ts). -/
def modelNameOf (cfgModel : Option String) (detected : Option String) : String :=
  match cfgModel with
  | some m => m
  | none => detected.getD "auto-detected"

/-- `result.report as string || 'No details provided'` on the
failure-status path of `search`. -/
def reportDetails (o : Obj) : String :=
  match lookupJ o "report" with
  | some (JVal.str r) => if r = "" then "No details provided" else r
  | _ => "No details provided"

/-- The check `result.success && typeof result.report === 'string'` on
the payload returned by the orchestrator: the report when it passes,
`none` otherwise. -/
def searchPayloadReport (o : Obj) : Option String :=
  match lookupJ o "success", lookupJ o "report" with
  | some (JVal.bool true), some (JVal.str r) => some r
  | _, _ => none

/-- Embedding of `search` (src/search.ts, `search`): CLI check, then
`executeResearchWithCorrection`; a thrown orchestrator error is caught
and returned as `EXECUTION_ERROR`; a payload with `success && typeof
report === 'string'` becomes the success value, any other payload becomes
`SEARCH_FAILED`.  `cfgModel` is `config.geminiModel` (`none` when the
configured value is falsy). -/
def search (senv : SearchEnv) (query : String) (cfgModel : Option String)
    (maxRetries : Nat) : SearchResultR :=
  if senv.cliAvailable = false then
    SearchResultR.fail
      ⟨"CLI_NOT_FOUND", "Gemini CLI is not installed or not in PATH",
        some "Install Gemini CLI via: npm install -g @google/gemini-cli"⟩
  else
    match (executeResearchWithCorrection senv.renv (senv.promptOf query) cfgModel maxRetries).2 with
    | Except.error m => SearchResultR.fail ⟨"EXECUTION_ERROR", m, none⟩
    | Except.ok cr =>
      match searchPayloadReport cr.data with
      | some r => SearchResultR.ok ⟨r, ⟨query, modelNameOf cfgModel cr.detectedModel⟩⟩
      | none =>
        SearchResultR.fail
          ⟨"SEARCH_FAILED", "Search task completed but returned failure status",
            some (reportDetails cr.data)⟩

/-! ## Deep search controller (src/deep-search.ts) -/

/-- The `IntermediateResult` of one round (src/deep-search.ts:82-91),
i.e. the validated payload returned by `executeSearchRound`.  `report`
is optional at runtime when `success` is false (validation only forces it
for `success: true`). -/
structure IR where
  success : Bool
  verified : Option Bool
  report : Option String
  sources_visited : Option (List String)
  search_queries_used : Option (List String)
deriving DecidableEq

/-- Per-round metadata record (src/deep-search.ts:32-36). -/
structure RoundMetadata where
  round : Nat
  sources_visited : Option (List String)
  search_queries_used : Option (List String)
deriving DecidableEq

/-- Deep-search success metadata (src/deep-search.ts:41-50); the
wall-clock fields `duration_ms` and `timestamp` are not representable in
this embedding. -/
structure DeepSearchMetadata where
  topic : String
  model : String
  total_iterations : Nat
  verified : Bool
  all_sources : List String
  rounds : List RoundMetadata
deriving DecidableEq

/-- Successful deep-search result (src/deep-search.ts:55-60). -/
structure DeepSearchSuccess where
  report : String
  verified : Bool
  metadata : DeepSearchMetadata
deriving DecidableEq

/-- The discriminated result of `deepSearch`. -/
inductive DeepSearchResult where
  | ok (s : DeepSearchSuccess)
  | fail (e : ErrObj)
deriving DecidableEq

/-- Environment of one `deepSearch` call: CLI availability and, for each
round index n (1-based, in execution order), the outcome of that round's
`executeSearchRound` call — either the validated payload it returns or
the message of the error it throws once its own retries are exhausted. -/
structure DeepEnv where
  cliAvailable : Bool
  rounds : Nat → Except String IR

/-- Mutable state of the verification loop (src/deep-search.ts:223-226). -/
structure DState where
  currentReport : String
  verified : Bool
  allSources : List String
  roundsList : List RoundMetadata
deriving DecidableEq

/-- First-occurrence deduplication, the behaviour of
`[...new Set(allSources)]` (src/deep-search.ts:311). -/
def dedupeAux : List String → List String → List String
  | _, [] => []
  | seen, x :: xs =>
    if x ∈ seen then dedupeAux seen xs else x :: dedupeAux (x :: seen) xs

/-- `[...new Set(l)]`. -/
def jsSetDedup (l : List String) : List String :=
  dedupeAux [] l

/-- Build the success value returned when the loop finishes
(src/deep-search.ts:300-314). -/
def finishDeep (topic model : String) (st : DState) : DeepSearchResult :=
  DeepSearchResult.ok
    ⟨st.currentReport, st.verified,
      ⟨topic, model, st.roundsList.length, st.verified,
        jsSetDedup st.allSources, st.roundsList⟩⟩

/-- Fold one successful round's payload into the loop state
(src/deep-search.ts:280-291): overwrite the report, take `verified ??
false`, append the sources, append the round record.  The `.getD ""`
default on `report` is unreachable for validated `success: true`
payloads. -/
def pushRound (st : DState) (n : Nat) (vr : IR) : DState :=
  { currentReport := vr.report.getD ""
    verified := vr.verified.getD false
    allSources := st.allSources ++ vr.sources_visited.getD []
    roundsList := st.roundsList ++ [⟨n, vr.sources_visited, vr.search_queries_used⟩] }

/-- The verification loop `for (round = 2; round <= maxIterations &&
!verified; round++)` (src/deep-search.ts:263-294), with `fuel =
maxIterations + 1 - round` at every call.  A payload with `success:
false` breaks the loop and keeps the previous result; a thrown round
error escapes the loop to the outer catch (src/deep-search.ts:315-329),
which returns the `EXECUTION_ERROR` failure. -/
def verifyLoop (env : DeepEnv) (topic model : String) :
    Nat → Nat → DState → DeepSearchResult
  | 0, _, st => finishDeep topic model st
  | fuel + 1, round, st =>
    if st.verified then finishDeep topic model st
    else
      match env.rounds round with
      | Except.error m => DeepSearchResult.fail ⟨"EXECUTION_ERROR", m, none⟩
      | Except.ok vr =>
        if vr.success = false then finishDeep topic model st
        else verifyLoop env topic model fuel (round + 1) (pushRound st round vr)

/-- Embedding of `deepSearch` (src/deep-search.ts:202-330).  CLI check;
round 1; a `success:false` round-1 payload is `SEARCH_FAILED` with the
payload's `report` as details; otherwise the verification loop runs
rounds 2..maxIterations.  A thrown round error (round 1 or later) is
caught by the surrounding try/catch and returned as `EXECUTION_ERROR`.
`model` is `config.geminiModel`. -/
def deepSearch (env : DeepEnv) (topic model : String) (maxIterations : Nat) :
    DeepSearchResult :=
  if env.cliAvailable = false then
    DeepSearchResult.fail
      ⟨"CLI_NOT_FOUND", "Gemini CLI is not installed or not in PATH",
        some "Install Gemini CLI via: npm install -g @google/gemini-cli"⟩
  else
    match env.rounds 1 with
    | Except.error m => DeepSearchResult.fail ⟨"EXECUTION_ERROR", m, none⟩
    | Except.ok ir =>
      if ir.success = false then
        DeepSearchResult.fail ⟨"SEARCH_FAILED", "Initial deep search failed", ir.report⟩
      else
        let st1 : DState :=
          ⟨ir.report.getD "", ir.verified.getD false, ir.sources_visited.getD [],
            [⟨1, ir.sources_visited, ir.search_queries_used⟩]⟩
        verifyLoop env topic model (maxIterations - 1) 2 st1

/-! ## Test fixtures used by witnesses -/

/-- A validated payload, standing for the parse of the fenced block. -/
def objA : Obj := [("success", JVal.bool true), ("report", JVal.str "A")]

/-- A distinct payload, standing for the parse of the brace substring. -/
def objB : Obj := [("success", JVal.bool false)]

/-- An output text containing both a parseable fenced block and a
distinct brace-delimited payload. -/
def cOut : String := "pre ```json \x7b\"a\": 1\x7d ``` post \x7b\"b\": 2\x7d"

/-- The raw fence capture of `cOut` (before trimming). -/
def cFence : String := " \x7b\"a\": 1\x7d "

/-- A concrete `JSON.parse` oracle distinguishing the fenced payload from
the brace-substring payload of `cOut`. -/
def toyParse (s : String) : Option Obj :=
  if s = "\x7b\"a\": 1\x7d" then some objA
  else if s = "\x7b\"a\": 1\x7d ``` post \x7b\"b\": 2\x7d" then some objB
  else none

/-- A retry environment in which every main run yields unextractable
output and every correction subprocess call throws. -/
def cRetryEnv : RetryEnv :=
  ⟨fun _ => none, fun _ => RunOutcome.ok "no json here",
    fun _ => RunOutcome.err "corr boom", fun _ => none, fun _ => true⟩

/-- The least `k` with `p k = true` among `start, start+1, ...` within
`n` indices. -/
def firstTrue (p : Nat → Bool) : Nat → Nat → Option Nat
  | _, 0 => none
  | start, n + 1 => if p start then some start else firstTrue p (start + 1) n

/-- Deep-search environment for the round-failure scenario: round 1
succeeds unverified, every later round's `executeSearchRound` throws. -/
def c1Env : DeepEnv :=
  ⟨true, fun n =>
    if n = 1 then
      Except.ok ⟨true, some false, some "round 1 report", some ["s1"], some ["q1"]⟩
    else Except.error "spawn failed: boom"⟩

/-- Deep-search environment in which every round succeeds and exactly
round 2 reports `verified: true`. -/
def c3Env : DeepEnv :=
  ⟨true, fun n =>
    Except.ok ⟨true, some (n == 2), some ("r" ++ toString n), some ["s"], none⟩⟩

/-- Deep-search environment with overlapping sources across two rounds,
round 2 verified. -/
def c10Env : DeepEnv :=
  ⟨true, fun n =>
    if n = 1 then Except.ok ⟨true, some false, some "r1", some ["s", "s"], some ["q"]⟩
    else Except.ok ⟨true, some true, some "r2", some ["s", "t"], none⟩⟩

/-- The success value `deepSearch c10Env "t" "m" 2` evaluates to. -/
def c10s : DeepSearchSuccess :=
  ⟨"r2", true,
    ⟨"t", "m", 2, true, ["s", "t"],
      [⟨1, some ["s", "s"], some ["q"]⟩, ⟨2, some ["s", "t"], none⟩]⟩⟩

/-! ## Claims about the extractor and validator -/

/-- Claim C6: for every raw output and parse oracle, extraction follows
the strategy order — a parseable first fenced ```` ```json ```` block
always wins (whatever the brace substring holds); when the fenced
strategy yields nothing parseable the result is exactly the
first-`\x7b`-to-last-`\x7d` strategy's result; and when both strategies
fail the result is `none` (the function is total, so it never throws). -/
theorem extract_strategy_order (parse : String → Option Obj) (out : String) :
    (∀ c j, fenceCandidate out = some c → parse (trimStr c) = some j →
      extractJsonFromOutput parse out = some j) ∧
    ((∀ c, fenceCandidate out = some c → parse (trimStr c) = none) →
      extractJsonFromOutput parse out = braceExtract parse out) ∧
    ((∀ c, fenceCandidate out = some c → parse (trimStr c) = none) →
      braceExtract parse out = none → extractJsonFromOutput parse out = none) := by
  refine ⟨?_, ?_, ?_⟩
  · intro c j hc hj
    simp [extractJsonFromOutput, hc, hj]
  · intro h
    cases hf : fenceCandidate out with
    | none => simp [extractJsonFromOutput, hf]
    | some c => simp [extractJsonFromOutput, hf, h c hf]
  · intro h hb
    cases hf : fenceCandidate out with
    | none => simp [extractJsonFromOutput, hf, hb]
    | some c => simp [extractJsonFromOutput, hf, h c hf, hb]

/-- Witness for C6 at a concrete input: `cOut` holds both a parseable
fenced block (payload `objA`) and a distinct brace payload (`objB`), and
extraction returns the fenced payload. -/
theorem extract_strategy_order_witness :
    fenceCandidate cOut = some cFence ∧
    toyParse (trimStr cFence) = some objA ∧
    braceExtract toyParse cOut = some objB ∧
    objA ≠ objB ∧
    extractJsonFromOutput toyParse cOut = some objA := by
  refine ⟨by decide, by decide, by decide, by decide, ?_⟩
  exact (extract_strategy_order toyParse cOut).1 cFence objA (by decide) (by decide)

/-- Claim C7: `validateResearchResult` passes exactly when a boolean
`success` field is present and (it is `false`, or a string `report` field
is present); in particular `success:true` without a report is rejected,
`success:false` without a report is accepted, and `success:true` with a
string report is accepted, all other fields being ignored. -/
theorem validateResearchResult_spec :
    (∀ o : Obj, validateResearchResult o = true ↔
      ∃ b, lookupJ o "success" = some (JVal.bool b) ∧
        (b = false ∨ ∃ s, lookupJ o "report" = some (JVal.str s))) ∧
    validateResearchResult [("success", JVal.bool true)] = false ∧
    validateResearchResult [("success", JVal.bool false)] = true ∧
    validateResearchResult [("success", JVal.bool true), ("report", JVal.str "x"),
      ("extra", JVal.other)] = true := by
  refine ⟨?_, by decide, by decide, by decide⟩
  intro o
  unfold validateResearchResult
  cases hs : lookupJ o "success" with
  | none => simp [hs]
  | some v =>
    cases v with
    | bool b =>
      cases b with
      | false => simp
      | true =>
        cases hr : lookupJ o "report" with
        | none => simp [hr]
        | some w => cases w <;> simp [hr]
    | str s => simp
    | other => simp

/-- Witness for C7 at a concrete input: `success:false` with no report
validates, via the characterisation. -/
theorem validateResearchResult_spec_witness :
    validateResearchResult [("success", JVal.bool false)] = true :=
  (validateResearchResult_spec.1 [("success", JVal.bool false)]).mpr
    ⟨false, rfl, Or.inl rfl⟩

/-! ## Claim about the process runner -/

/-- Claim C4: whenever the wall-clock timeout fires before the process's
`close` event, the run fails with the Timeout error; it never resolves
successfully, so the stdout accumulated before the deadline is discarded
even when the process would later close with exit code 0. -/
theorem spawn_timeout_discards_output (timeoutMs : Nat) (b : ProcBehavior)
    (hlive : b.spawnError = none) (hexp : timeoutMs ≤ b.closeTime) :
    spawnGeminiCli timeoutMs b = Except.error (SpawnErr.timeoutErr timeoutMs) ∧
    ∀ s, spawnGeminiCli timeoutMs b ≠ Except.ok s := by
  have h : spawnGeminiCli timeoutMs b = Except.error (SpawnErr.timeoutErr timeoutMs) := by
    unfold spawnGeminiCli
    rw [hlive]
    simp [hexp]
  exact ⟨h, fun s hcontra => by rw [h] at hcontra; cases hcontra⟩

/-- Concrete process behaviour: partial stdout emitted, the process hangs
past the 300000ms deadline and closes with exit code 0 at 400000ms. -/
def cHangProc : ProcBehavior := ⟨none, 400000, 0, "partial stdout", ""⟩

/-- Witness for C4 at a concrete input. -/
theorem spawn_timeout_discards_output_witness :
    spawnGeminiCli 300000 cHangProc = Except.error (SpawnErr.timeoutErr 300000) ∧
    spawnGeminiCli 300000 cHangProc ≠ Except.ok "partial stdout" := by
  have h := spawn_timeout_discards_output 300000 cHangProc rfl (by decide)
  exact ⟨h.1, h.2 "partial stdout"⟩

/-! ## Claim about the correction fallback's artifact lifecycle -/

/-- Claim C8: every `correctJsonOutput` call creates the temp file before
its subprocess call and attempts its deletion afterwards on every exit
path (corrected payload, still-invalid output, and subprocess error
alike), so a fresh temp file never outlives the call; and a failing
deletion changes nothing about the call's result. -/
theorem correction_artifact_lifecycle (parse : String → Option Obj)
    (run : RunOutcome) (ts : Nat) (fs : List String) (unlinkOk : Bool)
    (hfresh : tempNameOf ts ∉ fs) :
    (correctJsonOutput parse run ts fs unlinkOk).1 =
      [FEv.create (tempNameOf ts), FEv.spawnCall, FEv.unlink (tempNameOf ts)] ∧
    (unlinkOk = true → (correctJsonOutput parse run ts fs unlinkOk).2.1 = fs) ∧
    (unlinkOk = true → tempNameOf ts ∉ (correctJsonOutput parse run ts fs unlinkOk).2.1) ∧
    (correctJsonOutput parse run ts fs unlinkOk).2.2 =
      (correctJsonOutput parse run ts fs true).2.2 := by
  have herase : (tempNameOf ts :: fs).erase (tempNameOf ts) = fs :=
    List.erase_cons_head (tempNameOf ts) fs
  cases unlinkOk with
  | false =>
    refine ⟨rfl, ?_, ?_, rfl⟩ <;> intro h <;> exact absurd h (by simp)
  | true =>
    refine ⟨rfl, fun _ => ?_, fun _ => ?_, rfl⟩
    · simp [correctJsonOutput, herase]
    · simp [correctJsonOutput, herase, hfresh]

/-- Witness for C8 at a concrete input: a still-invalid correction run
against a one-file file system. -/
theorem correction_artifact_lifecycle_witness :
    tempNameOf 7 ∉ ["other.txt"] ∧
    (correctJsonOutput toyParse (RunOutcome.ok "garbage") 7 ["other.txt"] true).2.1 =
      ["other.txt"] := by
  have h := correction_artifact_lifecycle toyParse (RunOutcome.ok "garbage") 7
    ["other.txt"] true (by decide)
  exact ⟨by decide, h.2.1 rfl⟩

/-! ## Claims about the retry orchestrator -/

/-- A failing cycle: when the main run's output has no valid extractable
payload and the correction also fails, the cycle performs its single
correction call and reports the correction's error. -/
theorem cycleOutcome_fails (env : RetryEnv) (mm : Option String) (k : Nat)
    (hmain : ∃ out, env.mainRun k = RunOutcome.ok out ∧
      ∀ p, extractJsonFromOutput env.parse out = some p → validateResearchResult p = false)
    (hcorr : ∀ out, env.corrRun k = RunOutcome.ok out →
      ∀ p, extractJsonFromOutput env.parse out = some p → validateResearchResult p = false) :
    cycleOutcome env mm k = (true, Except.error (lastCycleErr env k)) := by
  obtain ⟨out, hok, hinv⟩ := hmain
  have hcres : (correctJsonOutput env.parse (env.corrRun k) k [] (env.unlinkOk k)).2.2 =
      Except.error (lastCycleErr env k) := by
    cases hc : env.corrRun k with
    | ok cout =>
      have hv := hcorr cout hc
      cases he : extractJsonFromOutput env.parse cout with
      | none => simp [correctJsonOutput, lastCycleErr, hc, he]
      | some p => simp [correctJsonOutput, lastCycleErr, hc, he, hv p he]
    | err m => simp [correctJsonOutput, lastCycleErr, hc]
  have hvalid : (match extractJsonFromOutput env.parse out with
      | some p => if validateResearchResult p then some p else none
      | none => (none : Option Obj)) = none := by
    cases he : extractJsonFromOutput env.parse out with
    | none => rfl
    | some p => simp [hinv p he]
  unfold cycleOutcome
  rw [hok]
  simp only [hvalid, hcres]

/-- Invariant of the retry loop when every cycle fails: starting at
`attempt` with `attempt + fuel = maxRetries + 1`, the remaining run
performs exactly `fuel` main calls and `fuel` correction calls and ends
with the aggregated final error built from the last cycle's error. -/
theorem execLoop_exhaust_inv (env : RetryEnv) (prompt : String) (mm : Option String)
    (maxRetries : Nat)
    (hfail : ∀ k, cycleOutcome env mm k = (true, Except.error (lastCycleErr env k))) :
    ∀ fuel attempt lastErr, 1 ≤ fuel → attempt + fuel = maxRetries + 1 →
      (execLoop env prompt mm maxRetries fuel attempt lastErr).1.countP isMainEv = fuel ∧
      (execLoop env prompt mm maxRetries fuel attempt lastErr).1.countP isCorrEv = fuel ∧
      (execLoop env prompt mm maxRetries fuel attempt lastErr).2 =
        Except.error (aggMsg maxRetries (some (lastCycleErr env maxRetries))) := by
  intro fuel
  induction fuel with
  | zero => intro attempt lastErr h1 h2; exact absurd h1 (by omega)
  | succ f ih =>
    intro attempt lastErr h1 h2
    rcases Nat.eq_zero_or_pos f with hf | hf
    · subst hf
      have ha : attempt = maxRetries := by omega
      subst ha
      simp [execLoop, hfail attempt, List.countP_cons, isMainEv, isCorrEv]
    · have hlt : attempt < maxRetries := by omega
      have hih := ih (attempt + 1) (some (lastCycleErr env attempt)) (by omega) (by omega)
      simp [execLoop, hfail attempt, hlt, List.countP_cons, List.countP_append,
        isMainEv, isCorrEv, isDelayEv, hih.1, hih.2.1, hih.2.2]

/-- Claim C2: when every main run returns output with no valid
extractable payload and every correction attempt also fails, the
orchestrator performs exactly `maxRetries` main subprocess calls and
exactly `maxRetries` correction subprocess calls (one correction per
cycle), then fails with the message aggregating the last cycle's
underlying error. -/
theorem retry_exhaustion_counts (env : RetryEnv) (prompt : String) (mm : Option String)
    (maxRetries : Nat) (hone : 1 ≤ maxRetries)
    (hmain : ∀ k, ∃ out, env.mainRun k = RunOutcome.ok out ∧
      ∀ p, extractJsonFromOutput env.parse out = some p → validateResearchResult p = false)
    (hcorr : ∀ k out, env.corrRun k = RunOutcome.ok out →
      ∀ p, extractJsonFromOutput env.parse out = some p → validateResearchResult p = false) :
    (executeResearchWithCorrection env prompt mm maxRetries).1.countP isMainEv = maxRetries ∧
    (executeResearchWithCorrection env prompt mm maxRetries).1.countP isCorrEv = maxRetries ∧
    (executeResearchWithCorrection env prompt mm maxRetries).2 =
      Except.error (aggMsg maxRetries (some (lastCycleErr env maxRetries))) := by
  have hfail : ∀ k, cycleOutcome env mm k = (true, Except.error (lastCycleErr env k)) :=
    fun k => cycleOutcome_fails env mm k (hmain k) (hcorr k)
  exact execLoop_exhaust_inv env prompt mm maxRetries hfail maxRetries 1 none hone (by omega)

/-- Witness for C2 at a concrete input: with `cRetryEnv` and 3 cycles,
3 main calls and 3 correction calls occur and the call fails with the
aggregated message. -/
theorem retry_exhaustion_counts_witness :
    (executeResearchWithCorrection cRetryEnv "p" none 3).1.countP isMainEv = 3 ∧
    (executeResearchWithCorrection cRetryEnv "p" none 3).1.countP isCorrEv = 3 ∧
    (executeResearchWithCorrection cRetryEnv "p" none 3).2 =
      Except.error (aggMsg 3 (some "corr boom")) := by
  have hm : ∀ k, ∃ out, cRetryEnv.mainRun k = RunOutcome.ok out ∧
      ∀ p, extractJsonFromOutput cRetryEnv.parse out = some p →
        validateResearchResult p = false := by
    intro k
    refine ⟨"no json here", rfl, ?_⟩
    intro p hp
    have hnone : extractJsonFromOutput cRetryEnv.parse "no json here" = none := by decide
    rw [hnone] at hp
    cases hp
  have hc : ∀ k out, cRetryEnv.corrRun k = RunOutcome.ok out →
      ∀ p, extractJsonFromOutput cRetryEnv.parse out = some p →
        validateResearchResult p = false := by
    intro k out h
    exact absurd h (by simp [cRetryEnv])
  have h := retry_exhaustion_counts cRetryEnv "p" none 3 (by omega) hm hc
  exact ⟨h.1, h.2.1, h.2.2⟩

/-- `lastEv` skips past a head when the tail is nonempty. -/
theorem lastEv_cons_ne (e : REv) (l : List REv) (h : l ≠ []) :
    lastEv (e :: l) = lastEv l := by
  cases l with
  | nil => exact absurd rfl h
  | cons a t => rfl

/-- Trace invariant of the retry loop: every main call re-runs the
original prompt; the delays are exactly `backoffDelay` of the non-final
executed attempts (in order); the trace never ends with a delay; and at
least one main call happens whenever at least one cycle may run. -/
theorem execLoop_trace_inv (env : RetryEnv) (prompt : String) (mm : Option String)
    (maxRetries : Nat) :
    ∀ fuel attempt lastErr, attempt + fuel = maxRetries + 1 →
      (∀ p, REv.mainCall p ∈ (execLoop env prompt mm maxRetries fuel attempt lastErr).1 →
        p = prompt) ∧
      delayVals (execLoop env prompt mm maxRetries fuel attempt lastErr).1 =
        (List.range' attempt
          ((execLoop env prompt mm maxRetries fuel attempt lastErr).1.countP isMainEv - 1)).map
          backoffDelay ∧
      (∀ e, lastEv (execLoop env prompt mm maxRetries fuel attempt lastErr).1 = some e →
        isDelayEv e = false) ∧
      (1 ≤ fuel →
        1 ≤ (execLoop env prompt mm maxRetries fuel attempt lastErr).1.countP isMainEv) := by
  intro fuel
  induction fuel with
  | zero =>
    intro attempt lastErr h2
    refine ⟨?_, ?_, ?_, ?_⟩
    · intro p hp; simp [execLoop] at hp
    · simp [execLoop, delayVals]
    · intro e he; simp [execLoop, lastEv] at he
    · intro h1; exact absurd h1 (by omega)
  | succ f ih =>
    intro attempt lastErr h2
    rcases hco : cycleOutcome env mm attempt with ⟨flag, res⟩
    cases res with
    | ok r =>
      cases flag with
      | false =>
        refine ⟨?_, ?_, ?_, ?_⟩
        · intro p hp
          simp [execLoop, hco] at hp
          exact hp
        · simp [execLoop, hco, delayVals, List.countP_cons, isMainEv]
        · intro e he
          simp [execLoop, hco, lastEv] at he
          simp [← he, isDelayEv]
        · intro _
          simp [execLoop, hco, List.countP_cons, isMainEv]
      | true =>
        refine ⟨?_, ?_, ?_, ?_⟩
        · intro p hp
          simp [execLoop, hco] at hp
          exact hp
        · simp [execLoop, hco, delayVals, List.countP_cons, isMainEv, isCorrEv]
        · intro e he
          simp [execLoop, hco, lastEv] at he
          simp [← he, isDelayEv]
        · intro _
          simp [execLoop, hco, List.countP_cons, isMainEv]
    | error m =>
      have hih := ih (attempt + 1) (some m) (by omega)
      rcases Nat.eq_zero_or_pos f with hf | hf
      · subst hf
        have hnlt : ¬ attempt < maxRetries := by omega
        cases flag with
        | false =>
          refine ⟨?_, ?_, ?_, ?_⟩
          · intro p hp
            simp [execLoop, hco, hnlt] at hp
            exact hp
          · simp [execLoop, hco, hnlt, delayVals, List.countP_cons, isMainEv]
          · intro e he
            simp [execLoop, hco, hnlt, lastEv] at he
            simp [← he, isDelayEv]
          · intro _
            simp [execLoop, hco, hnlt, List.countP_cons, isMainEv]
        | true =>
          refine ⟨?_, ?_, ?_, ?_⟩
          · intro p hp
            simp [execLoop, hco, hnlt] at hp
            exact hp
          · simp [execLoop, hco, hnlt, delayVals, List.countP_cons, isMainEv, isCorrEv]
          · intro e he
            simp [execLoop, hco, hnlt, lastEv] at he
            simp [← he, isDelayEv]
          · intro _
            simp [execLoop, hco, hnlt, List.countP_cons, isMainEv]
      · have hlt : attempt < maxRetries := by omega
        have hcnt := hih.2.2.2 (by omega)
        set T' := (execLoop env prompt mm maxRetries f (attempt + 1) (some m)).1 with hT'
        have hne : T' ≠ [] := by
          intro h
          rw [h] at hcnt
          simp at hcnt
        obtain ⟨c, hc⟩ : ∃ c, T'.countP isMainEv = c + 1 := ⟨T'.countP isMainEv - 1, by omega⟩
        cases flag with
        | false =>
          refine ⟨?_, ?_, ?_, ?_⟩
          · intro p hp
            simp [execLoop, hco, hlt] at hp
            rcases hp with hp | hp
            · exact hp
            · exact hih.1 p (by simpa using hp)
          · have hd : delayVals (execLoop env prompt mm maxRetries (f + 1) attempt lastErr).1 =
                backoffDelay attempt :: delayVals T' := by
              simp [execLoop, hco, hlt, delayVals]
            have hm : (execLoop env prompt mm maxRetries (f + 1) attempt lastErr).1.countP
                isMainEv = T'.countP isMainEv + 1 := by
              simp [execLoop, hco, hlt, List.countP_cons, List.countP_append, isMainEv,
                isDelayEv]
            rw [hd, hm, hih.2.1, hc]
            simp [List.range'_succ]
          · intro e he
            have hl : lastEv (execLoop env prompt mm maxRetries (f + 1) attempt lastErr).1 =
                lastEv T' := by
              have hsh : (execLoop env prompt mm maxRetries (f + 1) attempt lastErr).1 =
                  REv.mainCall prompt :: REv.delayEv (backoffDelay attempt) :: T' := by
                simp [execLoop, hco, hlt]
              rw [hsh, lastEv_cons_ne _ _ (by simp), lastEv_cons_ne _ _ hne]
            rw [hl] at he
            exact hih.2.2.1 e he
          · intro _
            simp [execLoop, hco, hlt, List.countP_cons, List.countP_append, isMainEv]
        | true =>
          refine ⟨?_, ?_, ?_, ?_⟩
          · intro p hp
            simp [execLoop, hco, hlt] at hp
            rcases hp with hp | hp
            · exact hp
            · exact hih.1 p (by simpa using hp)
          · have hd : delayVals (execLoop env prompt mm maxRetries (f + 1) attempt lastErr).1 =
                backoffDelay attempt :: delayVals T' := by
              simp [execLoop, hco, hlt, delayVals]
            have hm : (execLoop env prompt mm maxRetries (f + 1) attempt lastErr).1.countP
                isMainEv = T'.countP isMainEv + 1 := by
              simp [execLoop, hco, hlt, List.countP_cons, List.countP_append, isMainEv,
                isDelayEv, isCorrEv]
            rw [hd, hm, hih.2.1, hc]
            simp [List.range'_succ]
          · intro e he
            have hl : lastEv (execLoop env prompt mm maxRetries (f + 1) attempt lastErr).1 =
                lastEv T' := by
              have hsh : (execLoop env prompt mm maxRetries (f + 1) attempt lastErr).1 =
                  REv.mainCall prompt :: REv.corrCall ::
                    REv.delayEv (backoffDelay attempt) :: T' := by
                simp [execLoop, hco, hlt]
              rw [hsh, lastEv_cons_ne _ _ (by simp), lastEv_cons_ne _ _ (by simp),
                lastEv_cons_ne _ _ hne]
            rw [hl] at he
            exact hih.2.2.1 e he
          · intro _
            simp [execLoop, hco, hlt, List.countP_cons, List.countP_append, isMainEv]

/-- Claim C5 (amended): in every orchestrator call, backoff delays are
taken only between cycles and never after the last one, every cycle
re-runs the identical main prompt, and the delay before cycle k+1 is
`backoffDelay k`: 1s before the second cycle, 2s before the third, 4s
before the fourth, and 5s (capped) from the fifth cycle onward. -/
theorem retry_backoff_schedule (env : RetryEnv) (prompt : String) (mm : Option String)
    (maxRetries : Nat) :
    (∀ p, REv.mainCall p ∈ (executeResearchWithCorrection env prompt mm maxRetries).1 →
      p = prompt) ∧
    delayVals (executeResearchWithCorrection env prompt mm maxRetries).1 =
      (List.range' 1
        ((executeResearchWithCorrection env prompt mm maxRetries).1.countP isMainEv - 1)).map
        backoffDelay ∧
    (∀ e, lastEv (executeResearchWithCorrection env prompt mm maxRetries).1 = some e →
      isDelayEv e = false) ∧
    backoffDelay 1 = 1000 ∧ backoffDelay 2 = 2000 ∧ backoffDelay 3 = 4000 ∧
    (∀ a, 4 ≤ a → backoffDelay a = 5000) := by
  have h := execLoop_trace_inv env prompt mm maxRetries maxRetries 1 none (by omega)
  refine ⟨h.1, h.2.1, h.2.2.1, by decide, by decide, by decide, ?_⟩
  intro a ha
  have h8 : 8 ≤ 2 ^ (a - 1) := by
    calc (8 : Nat) = 2 ^ 3 := rfl
      _ ≤ 2 ^ (a - 1) := Nat.pow_le_pow_right (by omega) (by omega)
  unfold backoffDelay
  omega

/-- Counterexample to C5 as stated: with four failing cycles the delay
sequence is 1s, 2s, then 4s — not 5s from the third delay onward. -/
theorem retry_backoff_counterexample :
    delayVals (executeResearchWithCorrection cRetryEnv "p" none 4).1 =
      [1000, 2000, 4000] ∧
    delayVals (executeResearchWithCorrection cRetryEnv "p" none 4).1 ≠
      [1000, 2000, 5000] := by
  exact ⟨by decide, by decide⟩

/-- Witness for C5 (amended) at a concrete input: two failing cycles
produce the single delay `backoffDelay 1 = 1000` and the trace ends with
the final cycle's correction call, not a delay. -/
theorem retry_backoff_schedule_witness :
    delayVals (executeResearchWithCorrection cRetryEnv "p" none 2).1 = [1000] ∧
    lastEv (executeResearchWithCorrection cRetryEnv "p" none 2).1 = some REv.corrCall ∧
    isDelayEv REv.corrCall = false := by
  have h := retry_backoff_schedule cRetryEnv "p" none 2
  refine ⟨?_, by decide, h.2.2.1 REv.corrCall (by decide)⟩
  rw [h.2.1]
  decide

/-! ## Claims about the deep-search controller -/

/-- `dedupeAux` produces a list without duplicates, none of whose
elements were already seen. -/
theorem dedupeAux_nodup : ∀ (l seen : List String),
    (dedupeAux seen l).Nodup ∧ ∀ x ∈ dedupeAux seen l, x ∉ seen := by
  intro l
  induction l with
  | nil =>
    intro seen
    exact ⟨List.nodup_nil, by intro x hx; simp [dedupeAux] at hx⟩
  | cons a t ih =>
    intro seen
    by_cases ha : a ∈ seen
    · have h := ih seen
      exact ⟨by simpa [dedupeAux, ha] using h.1, by simpa [dedupeAux, ha] using h.2⟩
    · have h := ih (a :: seen)
      constructor
      · simp only [dedupeAux, ha, if_false]
        rw [List.nodup_cons]
        exact ⟨fun hmem => (h.2 a hmem) (by simp), h.1⟩
      · intro x hx
        simp only [dedupeAux, ha, if_false, List.mem_cons] at hx
        rcases hx with rfl | hx
        · exact ha
        · intro hxs
          exact (h.2 x hx) (by simp [hxs])

/-- `[...new Set(l)]` has no duplicate entries. -/
theorem jsSetDedup_nodup (l : List String) : (jsSetDedup l).Nodup :=
  (dedupeAux_nodup l []).1

/-- Once the state is verified, the loop stops immediately. -/
theorem verifyLoop_stop (env : DeepEnv) (topic model : String) :
    ∀ fuel round st, st.verified = true →
      verifyLoop env topic model fuel round st = finishDeep topic model st := by
  intro fuel round st h
  cases fuel with
  | zero => rfl
  | succ f => simp [verifyLoop, h]

/-- Structural invariants of every success result produced by the
verification loop, given that the incoming state's round records carry
indices `1..length`: the duplicated verified flags agree, the iteration
count is the record count, the record count only grows and grows by at
most `fuel`, indices stay `1..length`, and the deduplicated source list
has no duplicates. -/
theorem verifyLoop_ok_inv (env : DeepEnv) (topic model : String) :
    ∀ fuel round st,
      st.roundsList.map RoundMetadata.round = List.range' 1 st.roundsList.length →
      round = st.roundsList.length + 1 →
      ∀ s, verifyLoop env topic model fuel round st = DeepSearchResult.ok s →
        s.verified = s.metadata.verified ∧
        s.metadata.total_iterations = s.metadata.rounds.length ∧
        st.roundsList.length ≤ s.metadata.rounds.length ∧
        s.metadata.rounds.map RoundMetadata.round =
          List.range' 1 s.metadata.rounds.length ∧
        s.metadata.all_sources.Nodup := by
  intro fuel
  induction fuel with
  | zero =>
    intro round st hmap hr s hs
    simp only [verifyLoop, finishDeep] at hs
    injection hs with hs
    subst hs
    exact ⟨rfl, rfl, le_refl _, hmap, jsSetDedup_nodup _⟩
  | succ f ih =>
    intro round st hmap hr s hs
    simp only [verifyLoop] at hs
    by_cases hv : st.verified
    · rw [if_pos hv] at hs
      simp only [finishDeep] at hs
      injection hs with hs
      subst hs
      exact ⟨rfl, rfl, le_refl _, hmap, jsSetDedup_nodup _⟩
    · rw [if_neg hv] at hs
      cases hrd : env.rounds round with
      | error m => simp [hrd] at hs
      | ok vr =>
        simp only [hrd] at hs
        by_cases hsucc : vr.success = false
        · rw [if_pos hsucc] at hs
          simp only [finishDeep] at hs
          injection hs with hs
          subst hs
          exact ⟨rfl, rfl, le_refl _, hmap, jsSetDedup_nodup _⟩
        · rw [if_neg hsucc] at hs
          have hlen : (pushRound st round vr).roundsList.length =
              st.roundsList.length + 1 := by
            simp [pushRound]
          have hround : round = 1 + 1 * st.roundsList.length := by omega
          have hmap' : (pushRound st round vr).roundsList.map RoundMetadata.round =
              List.range' 1 (pushRound st round vr).roundsList.length := by
            rw [hlen, List.range'_concat 1 st.roundsList.length]
            simp only [pushRound, List.map_append, List.map_cons, List.map_nil]
            rw [hmap, hround]
          have hr' : round + 1 = (pushRound st round vr).roundsList.length + 1 := by
            rw [hlen]; omega
          have h := ih (round + 1) (pushRound st round vr) hmap' hr' s hs
          refine ⟨h.1, h.2.1, ?_, h.2.2.2.1, h.2.2.2.2⟩
          have := h.2.2.1
          rw [hlen] at this
          omega

/-- Specification of `firstTrue` in the `some` case: the found index is
the least one in the window satisfying the predicate. -/
theorem firstTrue_some_spec (p : Nat → Bool) :
    ∀ n start k, firstTrue p start n = some k →
      start ≤ k ∧ k < start + n ∧ p k = true ∧
        ∀ j, start ≤ j → j < k → p j = false := by
  intro n
  induction n with
  | zero => intro start k h; simp [firstTrue] at h
  | succ m ih =>
    intro start k h
    simp only [firstTrue] at h
    by_cases hp : p start
    · rw [if_pos hp] at h
      injection h with h
      subst h
      exact ⟨le_refl _, by omega, hp, fun j h1 h2 => absurd h1 (by omega)⟩
    · rw [if_neg hp] at h
      have hps : p start = false := by
        cases hps : p start with
        | false => rfl
        | true => exact absurd hps hp
      have h' := ih (start + 1) k h
      refine ⟨by omega, by omega, h'.2.2.1, ?_⟩
      intro j h1 h2
      rcases Nat.eq_or_lt_of_le h1 with rfl | hgt
      · exact hps
      · exact h'.2.2.2 j (by omega) h2

/-- Specification of `firstTrue` in the `none` case: no index in the
window satisfies the predicate. -/
theorem firstTrue_none_spec (p : Nat → Bool) :
    ∀ n start, firstTrue p start n = none →
      ∀ j, start ≤ j → j < start + n → p j = false := by
  intro n
  induction n with
  | zero => intro start _ j h1 h2; exact absurd h1 (by omega)
  | succ m ih =>
    intro start h j h1 h2
    simp only [firstTrue] at h
    by_cases hp : p start
    · rw [if_pos hp] at h; cases h
    · rw [if_neg hp] at h
      have hps : p start = false := by
        cases hps : p start with
        | false => rfl
        | true => exact absurd hps hp
      rcases Nat.eq_or_lt_of_le h1 with rfl | hgt
      · exact hps
      · exact ih (start + 1) h j (by omega) (by omega)

/-- When every round in the remaining window succeeds with an
unverified payload, the loop consumes the whole window: it finishes with
`fuel` more round records and stays unverified. -/
theorem verifyLoop_exhaust (env : DeepEnv) (topic model : String) (ver : Nat → Bool)
    (rep : Nat → String) (srcs qs : Nat → Option (List String)) :
    ∀ fuel round st,
      (∀ j, round ≤ j → j < round + fuel →
        env.rounds j = Except.ok ⟨true, some (ver j), some (rep j), srcs j, qs j⟩) →
      st.verified = false →
      (∀ j, round ≤ j → j < round + fuel → ver j = false) →
      ∃ st', verifyLoop env topic model fuel round st = finishDeep topic model st' ∧
        st'.roundsList.length = st.roundsList.length + fuel ∧ st'.verified = false := by
  intro fuel
  induction fuel with
  | zero => intro round st _ hv _; exact ⟨st, rfl, by omega, hv⟩
  | succ f ih =>
    intro round st hall hv hver
    have hrd := hall round (le_refl _) (by omega)
    have hvr : ver round = false := hver round (le_refl _) (by omega)
    have hstep : verifyLoop env topic model (f + 1) round st =
        verifyLoop env topic model f (round + 1)
          (pushRound st round ⟨true, some (ver round), some (rep round), srcs round,
            qs round⟩) := by
      simp [verifyLoop, hv, hrd]
    obtain ⟨st', h1, h2, h3⟩ := ih (round + 1)
      (pushRound st round ⟨true, some (ver round), some (rep round), srcs round, qs round⟩)
      (fun j hj1 hj2 => hall j (by omega) (by omega))
      (by simp [pushRound, hvr])
      (fun j hj1 hj2 => hver j (by omega) (by omega))
    refine ⟨st', by rw [hstep]; exact h1, ?_, h3⟩
    have : (pushRound st round ⟨true, some (ver round), some (rep round), srcs round,
        qs round⟩).roundsList.length = st.roundsList.length + 1 := by
      simp [pushRound]
    omega

/-- When the first verified round in the remaining window is `k` (all
earlier rounds succeed unverified, round `k` succeeds verified), the loop
stops right after round `k`, with one record per executed round. -/
theorem verifyLoop_verified_at (env : DeepEnv) (topic model : String) (ver : Nat → Bool)
    (rep : Nat → String) (srcs qs : Nat → Option (List String)) :
    ∀ fuel round st k,
      round ≤ k → k < round + fuel →
      (∀ j, round ≤ j → j ≤ k →
        env.rounds j = Except.ok ⟨true, some (ver j), some (rep j), srcs j, qs j⟩) →
      st.verified = false →
      (∀ j, round ≤ j → j < k → ver j = false) →
      ver k = true →
      ∃ st', verifyLoop env topic model fuel round st = finishDeep topic model st' ∧
        st'.roundsList.length = st.roundsList.length + (k + 1 - round) ∧
        st'.verified = true := by
  intro fuel
  induction fuel with
  | zero => intro round st k h1 h2; exact absurd h2 (by omega)
  | succ f ih =>
    intro round st k hk1 hk2 hall hv hmin hverk
    have hrd := hall round (le_refl _) hk1
    have hstep : verifyLoop env topic model (f + 1) round st =
        verifyLoop env topic model f (round + 1)
          (pushRound st round ⟨true, some (ver round), some (rep round), srcs round,
            qs round⟩) := by
      simp [verifyLoop, hv, hrd]
    have hlen : (pushRound st round ⟨true, some (ver round), some (rep round), srcs round,
        qs round⟩).roundsList.length = st.roundsList.length + 1 := by
      simp [pushRound]
    by_cases heq : round = k
    · subst heq
      have hst2v : (pushRound st round ⟨true, some (ver round), some (rep round),
          srcs round, qs round⟩).verified = true := by
        simp [pushRound, hverk]
      refine ⟨_, ?_, ?_, hst2v⟩
      · rw [hstep]
        exact verifyLoop_stop env topic model f (round + 1) _ hst2v
      · rw [hlen]; omega
    · have hlt : round < k := by omega
      have hst2v : (pushRound st round ⟨true, some (ver round), some (rep round),
          srcs round, qs round⟩).verified = false := by
        simp [pushRound, hmin round (le_refl _) hlt]
      obtain ⟨st', h1, h2, h3⟩ := ih (round + 1)
        (pushRound st round ⟨true, some (ver round), some (rep round), srcs round,
          qs round⟩) k (by omega) (by omega)
        (fun j hj1 hj2 => hall j (by omega) hj2) hst2v
        (fun j hj1 hj2 => hmin j (by omega) hj2) hverk
      refine ⟨st', by rw [hstep]; exact h1, ?_, h3⟩
      rw [hlen] at h2
      omega

/-- Claim C10: in every success result of `deepSearch` the top-level
`verified` flag equals `metadata.verified`, `total_iterations` equals the
number of round records and is at least 1, the round records carry
indices 1, 2, ..., total_iterations in ascending order, and `all_sources`
has no duplicate entries. -/
theorem deep_search_success_invariants (env : DeepEnv) (topic model : String)
    (maxIterations : Nat) (s : DeepSearchSuccess)
    (h : deepSearch env topic model maxIterations = DeepSearchResult.ok s) :
    s.verified = s.metadata.verified ∧
    s.metadata.total_iterations = s.metadata.rounds.length ∧
    1 ≤ s.metadata.total_iterations ∧
    s.metadata.rounds.map RoundMetadata.round =
      List.range' 1 s.metadata.rounds.length ∧
    s.metadata.all_sources.Nodup := by
  unfold deepSearch at h
  by_cases hcli : env.cliAvailable = false
  · rw [if_pos hcli] at h; simp at h
  · rw [if_neg hcli] at h
    cases hrd : env.rounds 1 with
    | error m => simp [hrd] at h
    | ok ir =>
      simp only [hrd] at h
      by_cases hsucc : ir.success = false
      · rw [if_pos hsucc] at h; simp at h
      · rw [if_neg hsucc] at h
        obtain ⟨h1, h2, h3, h4, h5⟩ := verifyLoop_ok_inv env topic model
          (maxIterations - 1) 2
          ⟨ir.report.getD "", ir.verified.getD false, ir.sources_visited.getD [],
            [⟨1, ir.sources_visited, ir.search_queries_used⟩]⟩
          rfl rfl s h
        exact ⟨h1, h2, by simp at h3; omega, h4, h5⟩

/-- Witness for C10 at a concrete input: `c10Env` produces the success
value `c10s`, for which all the invariants hold. -/
theorem deep_search_success_invariants_witness :
    deepSearch c10Env "t" "m" 2 = DeepSearchResult.ok c10s ∧
    (c10s.verified = c10s.metadata.verified ∧
      c10s.metadata.total_iterations = c10s.metadata.rounds.length ∧
      1 ≤ c10s.metadata.total_iterations ∧
      c10s.metadata.rounds.map RoundMetadata.round =
        List.range' 1 c10s.metadata.rounds.length ∧
      c10s.metadata.all_sources.Nodup) := by
  have heq : deepSearch c10Env "t" "m" 2 = DeepSearchResult.ok c10s := by decide
  exact ⟨heq, deep_search_success_invariants c10Env "t" "m" 2 c10s heq⟩

/-- Claim C3: when every round in the budget returns a valid success
payload, the verification loop runs rounds 2..maxIterations only while
unverified: if `k` is the first round reporting `verified: true`, exactly
`k` rounds run (`total_iterations = k`) and the result is verified; if no
round reports verified, exactly `maxIterations` rounds run and the result
is an unverified success; the round-record count never exceeds
`maxIterations`. -/
theorem deep_search_termination (env : DeepEnv) (topic model : String)
    (maxIterations : Nat) (ver : Nat → Bool) (rep : Nat → String)
    (srcs qs : Nat → Option (List String))
    (hone : 1 ≤ maxIterations) (hcli : env.cliAvailable = true)
    (hall : ∀ n, 1 ≤ n → n ≤ maxIterations →
      env.rounds n = Except.ok ⟨true, some (ver n), some (rep n), srcs n, qs n⟩) :
    ∃ s, deepSearch env topic model maxIterations = DeepSearchResult.ok s ∧
      s.metadata.rounds.length ≤ maxIterations ∧
      (∀ k, firstTrue ver 1 maxIterations = some k →
        s.metadata.total_iterations = k ∧ s.verified = true) ∧
      (firstTrue ver 1 maxIterations = none →
        s.metadata.total_iterations = maxIterations ∧ s.verified = false) := by
  have hcli' : ¬ env.cliAvailable = false := by rw [hcli]; simp
  have hrd1 := hall 1 (le_refl 1) hone
  have hds : deepSearch env topic model maxIterations =
      verifyLoop env topic model (maxIterations - 1) 2
        ⟨rep 1, ver 1, (srcs 1).getD [], [⟨1, srcs 1, qs 1⟩]⟩ := by
    unfold deepSearch
    rw [if_neg hcli', hrd1]
    rfl
  cases hft : firstTrue ver 1 maxIterations with
  | some k =>
    obtain ⟨hk1, hk2, hpk, hmin⟩ := firstTrue_some_spec ver maxIterations 1 k hft
    by_cases hk : k = 1
    · subst hk
      have hstop := verifyLoop_stop env topic model (maxIterations - 1) 2
        ⟨rep 1, ver 1, (srcs 1).getD [], [⟨1, srcs 1, qs 1⟩]⟩ hpk
      refine ⟨_, by rw [hds, hstop]; rfl, ?_, ?_, ?_⟩
      · show ([⟨1, srcs 1, qs 1⟩] : List RoundMetadata).length ≤ maxIterations
        simpa using hone
      · intro k' hk'
        injection hk' with hk'
        subst hk'
        exact ⟨rfl, hpk⟩
      · intro hn; simp at hn
    · have hv1 : ver 1 = false := hmin 1 (le_refl 1) (by omega)
      obtain ⟨st', h1, h2, h3⟩ := verifyLoop_verified_at env topic model ver rep srcs qs
        (maxIterations - 1) 2 ⟨rep 1, ver 1, (srcs 1).getD [], [⟨1, srcs 1, qs 1⟩]⟩ k
        (by omega) (by omega)
        (fun j hj1 hj2 => hall j (by omega) (by omega)) hv1
        (fun j hj1 hj2 => hmin j (by omega) hj2) hpk
      have hlen : st'.roundsList.length = k := by
        simp at h2; omega
      refine ⟨_, by rw [hds, h1]; rfl, ?_, ?_, ?_⟩
      · show st'.roundsList.length ≤ maxIterations
        omega
      · intro k' hk'
        injection hk' with hk'
        subst hk'
        exact ⟨hlen, h3⟩
      · intro hn; simp at hn
  | none =>
    have hvall := firstTrue_none_spec ver maxIterations 1 hft
    have hv1 : ver 1 = false := hvall 1 (le_refl 1) (by omega)
    obtain ⟨st', h1, h2, h3⟩ := verifyLoop_exhaust env topic model ver rep srcs qs
      (maxIterations - 1) 2 ⟨rep 1, ver 1, (srcs 1).getD [], [⟨1, srcs 1, qs 1⟩]⟩
      (fun j hj1 hj2 => hall j (by omega) (by omega)) hv1
      (fun j hj1 hj2 => hvall j (by omega) (by omega))
    have hlen : st'.roundsList.length = maxIterations := by
      simp at h2; omega
    refine ⟨_, by rw [hds, h1]; rfl, ?_, ?_, ?_⟩
    · show st'.roundsList.length ≤ maxIterations
      omega
    · intro k hk; simp at hk
    · intro _
      exact ⟨hlen, h3⟩

/-- Witness for C3 at a concrete input: with `c3Env` (round 2 is the
first verified round) and a budget of 5, exactly 2 rounds run, verified. -/
theorem deep_search_termination_witness :
    ∃ s, deepSearch c3Env "t" "m" 5 = DeepSearchResult.ok s ∧
      s.metadata.total_iterations = 2 ∧ s.verified = true := by
  obtain ⟨s, hs, _, hsome, _⟩ := deep_search_termination c3Env "t" "m" 5
    (fun n => n == 2) (fun n => "r" ++ toString n) (fun _ => some ["s"]) (fun _ => none)
    (by omega) rfl (fun n _ _ => rfl)
  have h2 := hsome 2 (by decide)
  exact ⟨s, hs, h2.1, h2.2⟩

/-- Claim C1 (the code contradicts it): round 1 succeeds unverified, the
round-2 `executeSearchRound` call throws — `deepSearch` then returns a
failure with code `EXECUTION_ERROR`, not a success carrying round 1's
report. -/
theorem deep_search_round_error_aborts :
    c1Env.rounds 1 =
      Except.ok ⟨true, some false, some "round 1 report", some ["s1"], some ["q1"]⟩ ∧
    c1Env.rounds 2 = Except.error "spawn failed: boom" ∧
    deepSearch c1Env "t" "m" 3 =
      DeepSearchResult.fail ⟨"EXECUTION_ERROR", "spawn failed: boom", none⟩ := by
  exact ⟨rfl, rfl, by decide⟩

/-- The verification loop only ever produces a success value or the
`EXECUTION_ERROR` failure of a thrown round error. -/
theorem verifyLoop_shape (env : DeepEnv) (topic model : String) :
    ∀ fuel round st,
      (∃ s, verifyLoop env topic model fuel round st = DeepSearchResult.ok s) ∨
      (∃ m, verifyLoop env topic model fuel round st =
        DeepSearchResult.fail ⟨"EXECUTION_ERROR", m, none⟩) := by
  intro fuel
  induction fuel with
  | zero => intro round st; exact Or.inl ⟨_, rfl⟩
  | succ f ih =>
    intro round st
    by_cases hv : st.verified
    · left
      exact ⟨_, by rw [verifyLoop_stop env topic model (f + 1) round st hv]; rfl⟩
    · cases hrd : env.rounds round with
      | error m =>
        right
        exact ⟨m, by simp [verifyLoop, hv, hrd]⟩
      | ok vr =>
        by_cases hsucc : vr.success = false
        · left
          have heq : verifyLoop env topic model (f + 1) round st =
              finishDeep topic model st := by
            simp [verifyLoop, hv, hrd, hsucc]
          exact ⟨_, by rw [heq]; rfl⟩
        · have heq : verifyLoop env topic model (f + 1) round st =
              verifyLoop env topic model f (round + 1) (pushRound st round vr) := by
            simp [verifyLoop, hv, hrd, hsucc]
          rcases ih (round + 1) (pushRound st round vr) with ⟨s, hs⟩ | ⟨m, hm⟩
          · exact Or.inl ⟨s, heq.trans hs⟩
          · exact Or.inr ⟨m, heq.trans hm⟩

/-- Claim C9: both entry points always resolve to a discriminated
success/failure value (they are total functions of their environment, so
no exception crosses the boundary), and every failure carries an error
object whose `code` is one of the stable strings `CLI_NOT_FOUND`,
`SEARCH_FAILED`, `EXECUTION_ERROR`, together with a message and optional
details. -/
theorem entry_points_discriminated (senv : SearchEnv) (query : String)
    (cfgModel : Option String) (maxRetries : Nat) (denv : DeepEnv)
    (topic model : String) (maxIterations : Nat) :
    ((∃ s, search senv query cfgModel maxRetries = SearchResultR.ok s) ∨
      (∃ e, search senv query cfgModel maxRetries = SearchResultR.fail e ∧
        (e.code = "CLI_NOT_FOUND" ∨ e.code = "SEARCH_FAILED" ∨
          e.code = "EXECUTION_ERROR"))) ∧
    ((∃ s, deepSearch denv topic model maxIterations = DeepSearchResult.ok s) ∨
      (∃ e, deepSearch denv topic model maxIterations = DeepSearchResult.fail e ∧
        (e.code = "CLI_NOT_FOUND" ∨ e.code = "SEARCH_FAILED" ∨
          e.code = "EXECUTION_ERROR"))) := by
  constructor
  · unfold search
    by_cases hcli : senv.cliAvailable = false
    · rw [if_pos hcli]
      right
      exact ⟨_, rfl, Or.inl rfl⟩
    · rw [if_neg hcli]
      split
      · right
        exact ⟨_, rfl, Or.inr (Or.inr rfl)⟩
      · split
        · left
          exact ⟨_, rfl⟩
        · right
          exact ⟨_, rfl, Or.inr (Or.inl rfl)⟩
  · unfold deepSearch
    by_cases hcli : denv.cliAvailable = false
    · rw [if_pos hcli]
      right
      exact ⟨_, rfl, Or.inl rfl⟩
    · rw [if_neg hcli]
      split
      · right
        exact ⟨_, rfl, Or.inr (Or.inr rfl)⟩
      · next ir hir =>
        split
        · right
          exact ⟨_, rfl, Or.inr (Or.inl rfl)⟩
        · rcases verifyLoop_shape denv topic model (maxIterations - 1) 2
            ⟨ir.report.getD "", ir.verified.getD false, ir.sources_visited.getD [],
              [⟨1, ir.sources_visited, ir.search_queries_used⟩]⟩ with ⟨s, hs⟩ | ⟨m, hm⟩
          · exact Or.inl ⟨s, hs⟩
          · exact Or.inr ⟨_, hm, Or.inr (Or.inr rfl)⟩

end GeminiSearch
